import Mathlib

/-!
Shallow embedding of the upstash ratelimit-py algorithms, from
`upstash_ratelimit/limiter.py` (the current `FixedWindow`, `SlidingWindow`
and `TokenBucket` limiters and their Lua scripts),
`upstash_ratelimit/asyncio/ratelimit.py` (`Ratelimit.block_until_ready`),
and the legacy `upstash_ratelimit/algorithm.py` (`RateLimitAlgorithm.reset`).

The Redis keys an algorithm touches for one identifier at one instant are
collected into a small state record, and each Lua script / decision path
becomes a pure state-transition function.  Counter values are `ℕ`, token
balances and timestamps are `ℤ` (milliseconds), and the Lua/Python real
arithmetic on weights and second-valued timestamps is modelled exactly
with `ℚ`.  `INCRBY` / `HSET` / `PEXPIRE` effects appear in the returned
state; key expiry ttls are recorded as the last value passed to `PEXPIRE`.
-/

namespace UpstashRatelimit

/-- The `Response` dataclass of `limiter.py`: decision flag, configured
limit, surfaced remaining count, and the reset instant in unix seconds. -/
structure Response where
  allowed : Bool
  limit : ℤ
  remaining : ℤ
  reset : ℚ
deriving DecidableEq

/-- `utils.ms_to_s`: converts a millisecond value to seconds by true
division. -/
def msToS (v : ℤ) : ℚ := (v : ℚ) / 1000

namespace FixedWindow

/-- The store state of one identifier's current fixed window: the counter
at key `{identifier}:{curr_window}` (`none` = key absent) and the ttl last
set on it by `PEXPIRE`. -/
structure State where
  count : Option ℕ
  ttl : Option ℕ
deriving DecidableEq

/-- `FixedWindow.SCRIPT` of `limiter.py`: `INCRBY key increment_by`; when
the result equals `increment_by` (first write of the window) the key's
expiry is set to the window length; the new counter value is returned. -/
def script (window rate : ℕ) (st : State) : ℕ × State :=
  let r := st.count.getD 0 + rate
  (r, { count := some r, ttl := if r = rate then some window else st.ttl })

/-- `FixedWindow._limit` of `limiter.py`: runs the script on the current
window's key and assembles the `Response`. -/
def limit (maxRequests window now rate : ℕ) (st : State) : Response × State :=
  let currWindow := now / window
  let res := script window rate st
  ({ allowed := decide (res.1 ≤ maxRequests),
     limit := (maxRequests : ℤ),
     remaining := max 0 ((maxRequests : ℤ) - (res.1 : ℤ)),
     reset := msToS (((currWindow + 1) * window : ℕ) : ℤ) }, res.2)

/-- `FixedWindow._get_remaining` of `limiter.py`: reads the current
window's counter; an absent key yields the full `max_requests`. -/
def getRemaining (maxRequests : ℕ) (count : Option ℕ) : ℤ :=
  match count with
  | none => (maxRequests : ℤ)
  | some n => max 0 ((maxRequests : ℤ) - (n : ℤ))

/-- `FixedWindow._get_reset` of `limiter.py`: no store interaction; always
the end of the current window, in seconds. -/
def getReset (window now : ℕ) : ℚ := msToS (((now / window + 1) * window : ℕ) : ℤ)

end FixedWindow

namespace SlidingWindow

/-- The store state of one identifier at one instant: the counters at the
current and previous window keys, and the ttl last set on the current
window's key. -/
structure State where
  curr : Option ℕ
  prev : Option ℕ
  ttl : Option ℕ
deriving DecidableEq

/-- Fraction of the current window already elapsed:
`(now % window) / window` (Lua real division). -/
def pct (window now : ℕ) : ℚ := ((now % window : ℕ) : ℚ) / (window : ℚ)

/-- `SlidingWindow.SCRIPT` of `limiter.py`: reads both counters (absent
keys read as `0`), floors the weighted previous-window count, returns `-1`
without writing when the estimate reaches the limit, and otherwise
increments the current counter (setting its expiry on first write) and
returns the remaining count. -/
def script (maxRequests now window rate : ℕ) (st : State) : ℤ × State :=
  let cur := st.curr.getD 0
  let prev := st.prev.getD 0
  let wprev : ℤ := ⌊(1 - pct window now) * (prev : ℚ)⌋
  if (maxRequests : ℤ) ≤ wprev + (cur : ℤ) then (-1, st)
  else
    let newVal := cur + rate
    ((maxRequests : ℤ) - ((newVal : ℤ) + wprev),
     { curr := some newVal, prev := st.prev,
       ttl := if newVal = rate then some (window * 2 + 1000) else st.ttl })

/-- `SlidingWindow._limit` of `limiter.py`. -/
def limit (maxRequests window now rate : ℕ) (st : State) : Response × State :=
  let res := script maxRequests now window rate st
  ({ allowed := decide (0 ≤ res.1),
     limit := (maxRequests : ℤ),
     remaining := max 0 res.1,
     reset := msToS (((now / window + 1) * window : ℕ) : ℤ) }, res.2)

/-- Iterates `limit` on the store state, keeping the clock fixed. -/
def limitN (maxRequests window now rate : ℕ) (st : State) : ℕ → State
  | 0 => st
  | k + 1 => (limit maxRequests window now rate (limitN maxRequests window now rate st k)).2

/-- The spec's sliding-window estimate:
`previous_count * (1 - (now mod window)/window) + current_count`, with a
missing counter read as `0`. -/
def estimate (window now : ℕ) (st : State) : ℚ :=
  (st.prev.getD 0 : ℚ) * (1 - pct window now) + (st.curr.getD 0 : ℚ)

/-- `SlidingWindow._get_remaining` of `limiter.py`: read-only weighted
estimate (Python `int()` truncation of the nonnegative weighted previous
count is its floor). -/
def getRemaining (maxRequests window now : ℕ) (curr prev : Option ℕ) : ℤ :=
  let n := curr.getD 0
  let p := prev.getD 0
  let pw : ℤ := ⌊(p : ℚ) * (1 - pct window now)⌋
  max 0 ((maxRequests : ℤ) - (pw + (n : ℤ)))

/-- `SlidingWindow._get_reset` of `limiter.py`: no store interaction;
always the end of the current window, in seconds. -/
def getReset (window now : ℕ) : ℚ := msToS (((now / window + 1) * window : ℕ) : ℤ)

end SlidingWindow

namespace TokenBucket

/-- The store state of one identifier's bucket: the hash fields
`(refilled_at, tokens)` (`none` = key absent) and the ttl last set by
`PEXPIRE`. -/
structure State where
  bucket : Option (ℤ × ℤ)
  ttl : Option ℤ
deriving DecidableEq

/-- `TokenBucket.SCRIPT` of `limiter.py`: a missing bucket reads as
`(now, max_tokens)`; if at least one interval elapsed since `refilled_at`,
`floor((now - refilled_at)/interval)` refills are applied (clamped to
`max_tokens`) and `refilled_at` advances by that many intervals; a bucket
at exactly `0` tokens denies without writing; otherwise `increment_by`
tokens are consumed and the bucket is written back with an expiry sized to
reach a full bucket again.  (Lua `math.floor` of the nonnegative real
quotient coincides with `ℤ` euclidean division by the positive interval;
`math.ceil (a / b)` is `-((-a) / b)`.) -/
def script (maxTokens interval refillRate now rate : ℕ) (st : State) : (ℤ × ℤ) × State :=
  let b := st.bucket.getD ((now : ℤ), (maxTokens : ℤ))
  let refills : ℤ := ((now : ℤ) - b.1) / (interval : ℤ)
  let refilledAt : ℤ :=
    if b.1 + (interval : ℤ) ≤ (now : ℤ) then b.1 + refills * (interval : ℤ) else b.1
  let tokens : ℤ :=
    if b.1 + (interval : ℤ) ≤ (now : ℤ) then
      min (maxTokens : ℤ) (b.2 + refills * (refillRate : ℤ))
    else b.2
  if tokens = 0 then ((-1, refilledAt + (interval : ℤ)), st)
  else
    let remaining := tokens - (rate : ℤ)
    let expireAt := -(-((maxTokens : ℤ) - remaining) / (refillRate : ℤ)) * (interval : ℤ)
    ((remaining, refilledAt + (interval : ℤ)),
     { bucket := some (refilledAt, remaining), ttl := some expireAt })

/-- `TokenBucket._limit` of `limiter.py`. -/
def limit (maxTokens interval refillRate now rate : ℕ) (st : State) : Response × State :=
  let res := script maxTokens interval refillRate now rate st
  ({ allowed := decide (0 ≤ res.1.1),
     limit := (maxTokens : ℤ),
     remaining := max 0 res.1.1,
     reset := msToS res.1.2 }, res.2)

/-- Well-formed stored bucket: tokens in `[0, max_tokens]` (or no bucket). -/
def wf (maxTokens : ℕ) (st : State) : Prop :=
  match st.bucket with
  | none => True
  | some rt => 0 ≤ rt.2 ∧ rt.2 ≤ (maxTokens : ℤ)

/-- Upper-bounded stored bucket: tokens at most `max_tokens` (or no
bucket).  This bound is preserved by the script for every request cost. -/
def ub (maxTokens : ℕ) (st : State) : Prop :=
  match st.bucket with
  | none => True
  | some rt => rt.2 ≤ (maxTokens : ℤ)

/-- `TokenBucket._get_remaining` of `limiter.py`: a missing bucket yields
`max_tokens`; otherwise due refills are added (clamped) without writing. -/
def getRemaining (maxTokens refillRate interval now : ℕ) (bucket : Option (ℤ × ℤ)) : ℤ :=
  match bucket with
  | none => (maxTokens : ℤ)
  | some rt =>
    if rt.1 + (interval : ℤ) ≤ (now : ℤ) then
      min (maxTokens : ℤ) (rt.2 + (((now : ℤ) - rt.1) / (interval : ℤ)) * (refillRate : ℤ))
    else rt.2

/-- `TokenBucket._get_reset` of `limiter.py`: a missing bucket yields the
current time in seconds (the generator driver returns the first yielded
value); otherwise the next refill instant after advancing `refilled_at` by
the due whole intervals. -/
def getReset (interval now : ℕ) (refilledAt : Option ℤ) : ℚ :=
  match refilledAt with
  | none => msToS (now : ℤ)
  | some r =>
    if r + (interval : ℤ) ≤ (now : ℤ) then
      msToS (r + (((now : ℤ) - r) / (interval : ℤ)) * (interval : ℤ) + (interval : ℤ))
    else msToS (r + (interval : ℤ))

end TokenBucket

namespace Legacy

/-- `FixedWindow.reset` of the legacy `algorithm.py`: `-1` when the
current window's key does not exist, else the end of the current window in
milliseconds. -/
def fixedWindowReset (window now : ℕ) (count : Option ℕ) : ℤ :=
  match count with
  | none => -1
  | some _ => (((now / window) * window + window : ℕ) : ℤ)

/-- `SlidingWindow.reset` of the legacy `algorithm.py`: `-1` when neither
the previous nor the current window's key exists. -/
def slidingWindowReset (window now : ℕ) (curr prev : Option ℕ) : ℤ :=
  match curr, prev with
  | none, none => -1
  | _, _ => (((now / window) * window + window : ℕ) : ℤ)

/-- `TokenBucket.reset` of the legacy `algorithm.py`: `-1` when the bucket
does not exist, else the next refill instant in milliseconds. -/
def tokenBucketReset (interval now : ℕ) (updatedAt : Option ℤ) : ℤ :=
  match updatedAt with
  | none => -1
  | some u =>
    if (now : ℤ) < u + (interval : ℤ) then u + (interval : ℤ)
    else u + (((now : ℤ) - u) / (interval : ℤ)) * (interval : ℤ) + (interval : ℤ)

end Legacy

/-- The error raised by `Ratelimit.block_until_ready` on a non-positive
timeout (`ValueError` in `asyncio/ratelimit.py`). -/
inductive RatelimitError
  | invalidTimeout
deriving DecidableEq

namespace Block

/-- The store state reached after `n` calls of the injected single-shot
decision function. -/
def storeAt {σ : Type} (limitFn : σ → Response × σ) (s : σ) : ℕ → σ
  | 0 => s
  | n + 1 => (limitFn (storeAt limitFn s n)).2

/-- The response of the `(i+1)`-th single-shot decision. -/
def respAt {σ : Type} (limitFn : σ → Response × σ) (s : σ) (i : ℕ) : Response :=
  (limitFn (storeAt limitFn s i)).1

/-- The retry loop of `Ratelimit.block_until_ready`
(`asyncio/ratelimit.py`): issue a decision; stop on an allowed response;
otherwise sleep and stop when the clock has passed the deadline.  `checks`
supplies the clock value observed at each post-sleep deadline test; the
result carries the final store and the number of decisions issued
(`none` means the supplied clock trace was exhausted while still looping,
which real, strictly increasing clocks rule out). -/
def blockLoop {σ : Type} (limitFn : σ → Response × σ) (deadline : ℚ) :
    List ℚ → σ → Option Response × σ × ℕ
  | [], s => (none, s, 0)
  | t :: rest, s =>
    let p := limitFn s
    if p.1.allowed then (some p.1, p.2, 1)
    else if deadline < t then (some p.1, p.2, 1)
    else
      let q := blockLoop limitFn deadline rest p.2
      (q.1, q.2.1, q.2.2 + 1)

/-- `Ratelimit.block_until_ready` of `asyncio/ratelimit.py`: a
non-positive timeout raises before any decision; otherwise the deadline is
`now + timeout` and the retry loop runs. -/
def blockUntilReady {σ : Type} (limitFn : σ → Response × σ) (timeout start : ℚ)
    (checks : List ℚ) (s : σ) : Except RatelimitError (Option Response) × σ × ℕ :=
  if timeout ≤ 0 then (Except.error RatelimitError.invalidTimeout, s, 0)
  else
    let q := blockLoop limitFn (start + timeout) checks s
    (Except.ok q.1, q.2)

/-- Decision `i` is the first allowed one, and every earlier (denied)
iteration passed its deadline test. -/
def FirstAllowedAt {σ : Type} (limitFn : σ → Response × σ) (s : σ) (deadline : ℚ)
    (checks : List ℚ) (i : ℕ) : Prop :=
  i < checks.length ∧
  (∀ j, j < i → (respAt limitFn s j).allowed = false ∧ checks.getD j 0 ≤ deadline) ∧
  (respAt limitFn s i).allowed = true

/-- Decisions `0..i` are all denied, the deadline test passes up to
iteration `i - 1`, and fails at iteration `i`: decision `i` is the last
observed denied response. -/
def DeadlineHitAt {σ : Type} (limitFn : σ → Response × σ) (s : σ) (deadline : ℚ)
    (checks : List ℚ) (i : ℕ) : Prop :=
  i < checks.length ∧
  (∀ j, j ≤ i → (respAt limitFn s j).allowed = false) ∧
  (∀ j, j < i → checks.getD j 0 ≤ deadline) ∧
  deadline < checks.getD i 0

end Block

/-- A toy single-shot decision function over store `ℕ`, used to exercise
the blocking loop on concrete inputs: the `n`-th call is allowed iff
`n ≥ 1`, and every call increments the store. -/
def demoLimitFn (n : ℕ) : Response × ℕ :=
  ({ allowed := decide (1 ≤ n), limit := 1, remaining := 0, reset := 0 }, n + 1)

/- ------------------------------------------------------------------ -/
/- Theorems                                                           -/
/- ------------------------------------------------------------------ -/

theorem pct_nonneg (window now : ℕ) : 0 ≤ SlidingWindow.pct window now := by
  unfold SlidingWindow.pct
  positivity

theorem pct_le_one (window now : ℕ) : SlidingWindow.pct window now ≤ 1 := by
  unfold SlidingWindow.pct
  rcases Nat.eq_zero_or_pos window with hw | hw
  · simp [hw]
  · rw [div_le_one (by exact_mod_cast hw)]
    exact_mod_cast (Nat.mod_lt now hw).le

theorem le_estimate_iff (maxR cur prev : ℕ) (w : ℚ) :
    (maxR : ℚ) ≤ (prev : ℚ) * w + (cur : ℚ) ↔
      (maxR : ℤ) ≤ ⌊w * (prev : ℚ)⌋ + (cur : ℤ) := by
  rw [show ((maxR : ℤ) ≤ ⌊w * (prev : ℚ)⌋ + (cur : ℤ)) ↔
      ((maxR : ℤ) - (cur : ℤ) ≤ ⌊w * (prev : ℚ)⌋) by omega, Int.le_floor]
  push_cast
  constructor <;> intro h <;> nlinarith [mul_comm w (prev : ℚ)]

/-- C5: every Fixed Window `limit()` call unconditionally increments the
current window's counter (the over-limit request is still charged), the
response is allowed exactly when the post-increment count is at most the
configured limit, and `remaining = max 0 (limit - count)`. -/
theorem fixedWindow_charges_every_request (maxRequests window now rate : ℕ)
    (st : FixedWindow.State) :
    ((FixedWindow.limit maxRequests window now rate st).2.count
        = some (st.count.getD 0 + rate)) ∧
    ((FixedWindow.limit maxRequests window now rate st).1.allowed = true ↔
        st.count.getD 0 + rate ≤ maxRequests) ∧
    ((FixedWindow.limit maxRequests window now rate st).1.remaining
        = max 0 ((maxRequests : ℤ) - ((st.count.getD 0 + rate : ℕ) : ℤ))) := by
  refine ⟨rfl, ?_, rfl⟩
  simp [FixedWindow.limit, FixedWindow.script]

/-- C7: with the default unit cost, a Sliding Window `limit()` call is
denied exactly when
`previous_count * (1 - (now mod window)/window) + current_count` reaches
the limit, where a missing counter reads as `0`. -/
theorem slidingWindow_denies_iff_estimate_ge (maxRequests window now : ℕ)
    (st : SlidingWindow.State) :
    (SlidingWindow.limit maxRequests window now 1 st).1.allowed = false ↔
      (maxRequests : ℚ) ≤ SlidingWindow.estimate window now st := by
  rw [SlidingWindow.estimate,
    le_estimate_iff maxRequests (st.curr.getD 0) (st.prev.getD 0) (1 - SlidingWindow.pct window now)]
  unfold SlidingWindow.limit SlidingWindow.script
  by_cases hc : (maxRequests : ℤ) ≤
      ⌊(1 - SlidingWindow.pct window now) * (st.prev.getD 0 : ℚ)⌋ + (st.curr.getD 0 : ℤ)
  · simp [hc]
  · simp only [hc, if_false, decide_eq_false_iff_not, not_le, iff_false, not_lt]
    push_cast
    omega

/-- C3: whenever the sliding-window estimate is at or over the limit, the
`limit()` call denies and leaves the store untouched (no counter
increment, no expiry), so any number of repeated calls at the same instant
keeps the same state, the same estimate and the same denied response. -/
theorem slidingWindow_denied_writes_nothing (maxRequests window now rate : ℕ)
    (st : SlidingWindow.State)
    (h : (maxRequests : ℚ) ≤ SlidingWindow.estimate window now st) :
    ((SlidingWindow.limit maxRequests window now rate st).2 = st) ∧
    ((SlidingWindow.limit maxRequests window now rate st).1.allowed = false) ∧
    (∀ k, SlidingWindow.limitN maxRequests window now rate st k = st) ∧
    (∀ k, (SlidingWindow.limit maxRequests window now rate
        (SlidingWindow.limitN maxRequests window now rate st k)).1
      = (SlidingWindow.limit maxRequests window now rate st).1) ∧
    (∀ k, SlidingWindow.estimate window now
        (SlidingWindow.limitN maxRequests window now rate st k)
      = SlidingWindow.estimate window now st) := by
  have hc : (maxRequests : ℤ) ≤
      ⌊(1 - SlidingWindow.pct window now) * (st.prev.getD 0 : ℚ)⌋ + (st.curr.getD 0 : ℤ) := by
    rw [SlidingWindow.estimate,
      le_estimate_iff maxRequests (st.curr.getD 0) (st.prev.getD 0)
        (1 - SlidingWindow.pct window now)] at h
    exact h
  have hfix : (SlidingWindow.limit maxRequests window now rate st).2 = st := by
    simp [SlidingWindow.limit, SlidingWindow.script, hc]
  have hiter : ∀ k, SlidingWindow.limitN maxRequests window now rate st k = st := by
    intro k
    induction k with
    | zero => rfl
    | succ k ih => rw [SlidingWindow.limitN, ih, hfix]
  refine ⟨hfix, ?_, hiter, fun k => by rw [hiter], fun k => by rw [hiter]⟩
  simp [SlidingWindow.limit, SlidingWindow.script, hc]

/-- Witness for C3: one stored request, limit 1, at the window start. -/
theorem slidingWindow_denied_writes_nothing_witness :
    (SlidingWindow.limit 1 1000 0 1 ⟨some 1, none, none⟩).2
      = (⟨some 1, none, none⟩ : SlidingWindow.State) :=
  (slidingWindow_denied_writes_nothing 1 1000 0 1 ⟨some 1, none, none⟩ (by
    norm_num [SlidingWindow.estimate, SlidingWindow.pct])).1

/-- The token-bucket script never writes a token balance above
`max_tokens`, whatever the request cost: the upper bound on the stored
balance is an invariant of every reachable store state. -/
theorem tokenBucket_ub_preserved (maxTokens interval refillRate now rate : ℕ)
    (st : TokenBucket.State) (hub : TokenBucket.ub maxTokens st) :
    TokenBucket.ub maxTokens
      (TokenBucket.script maxTokens interval refillRate now rate st).2 := by
  rcases hb : st.bucket with _ | ⟨r, t⟩
  · simp only [TokenBucket.script, hb, Option.getD_none, Option.getD_some]
    split_ifs with h1 h2 <;> simp_all [TokenBucket.ub]
  · rw [TokenBucket.ub, hb] at hub
    simp only [TokenBucket.script, hb, Option.getD_none, Option.getD_some]
    split_ifs with h1 h2 <;> simp_all [TokenBucket.ub] <;> omega

/-- C1 counterexample: a fresh bucket with `max_tokens = 1` hit by a
single `limit()` call of cost `2` completes its write with a stored token
balance of `-1`, outside `[0, max_tokens]`. -/
theorem tokenBucket_negative_balance_cex :
    ((TokenBucket.limit 1 1000 1 0 2 ⟨none, none⟩).2.bucket = some (0, -1)) ∧
    ((-1 : ℤ) < 0) := by
  exact ⟨by decide, by decide⟩

/-- C1 (amended): with the default unit request cost, every completed
`limit()` decision keeps the stored token balance in `[0, max_tokens]`;
and for every request cost, the stored refill timestamp of an existing
bucket only ever advances by whole multiples of the interval (a freshly
created bucket records the current time). -/
theorem tokenBucket_store_invariant_unit_cost (maxT interval rr now : ℕ)
    (st : TokenBucket.State) (hmax : 1 ≤ maxT) (hwf : TokenBucket.wf maxT st) :
    TokenBucket.wf maxT (TokenBucket.limit maxT interval rr now 1 st).2 ∧
    (∀ rate rA tA,
      (TokenBucket.limit maxT interval rr now rate st).2.bucket = some (rA, tA) →
        (st.bucket = none → rA = (now : ℤ)) ∧
        (∀ rB tB, st.bucket = some (rB, tB) →
          ∃ k : ℕ, rA = rB + (k : ℤ) * (interval : ℤ))) := by
  constructor
  · rcases hb : st.bucket with _ | ⟨r, t⟩
    · simp only [TokenBucket.limit, TokenBucket.script, hb, Option.getD_none,
        sub_self, Int.zero_ediv, zero_mul, add_zero, min_self]
      split_ifs with h1 h2 h2 <;> simp_all [TokenBucket.wf, hb]
    · rw [TokenBucket.wf, hb] at hwf
      have hrefills : 0 ≤ ((now : ℤ) - r) / (interval : ℤ) ∨
          ¬(r + (interval : ℤ) ≤ (now : ℤ)) := by
        by_cases h : r + (interval : ℤ) ≤ (now : ℤ)
        · exact Or.inl (Int.ediv_nonneg (by omega) (by positivity))
        · exact Or.inr h
      have hprod : 0 ≤ ((now : ℤ) - r) / (interval : ℤ) * (rr : ℤ) ∨
          ¬(r + (interval : ℤ) ≤ (now : ℤ)) := by
        rcases hrefills with h | h
        · exact Or.inl (mul_nonneg h (by positivity))
        · exact Or.inr h
      simp only [TokenBucket.limit, TokenBucket.script, hb, Option.getD_some]
      split_ifs with h1 h2 h2 <;>
        simp_all [TokenBucket.wf, hb, le_min_iff, min_le_iff] <;> omega
  · intro rate rA tA hbA
    rcases hb : st.bucket with _ | ⟨r, t⟩
    · refine ⟨fun _ => ?_, fun rB tB hB => absurd hB (by simp [hb])⟩
      simp only [TokenBucket.limit, TokenBucket.script, hb, Option.getD_none,
        sub_self, Int.zero_ediv, zero_mul, add_zero, min_self, ite_self] at hbA
      split_ifs at hbA with h2 <;> dsimp only at hbA
      · rw [hb] at hbA
        cases hbA
      · simp only [Option.some.injEq, Prod.mk.injEq] at hbA
        exact hbA.1.symm
    · refine ⟨fun hnone => absurd hnone (by simp [hb]), fun rB tB hB => ?_⟩
      rw [Option.some.injEq, Prod.mk.injEq] at hB
      obtain ⟨rfl, rfl⟩ := hB
      simp only [TokenBucket.limit, TokenBucket.script, hb, Option.getD_some] at hbA
      split_ifs at hbA with h1 h2 h2 <;> dsimp only at hbA
      · rw [hb, Option.some.injEq, Prod.mk.injEq] at hbA
        exact ⟨0, by omega⟩
      · rw [Option.some.injEq, Prod.mk.injEq] at hbA
        refine ⟨(((now : ℤ) - r) / (interval : ℤ)).toNat, ?_⟩
        rw [Int.toNat_of_nonneg (Int.ediv_nonneg (by omega) (by positivity))]
        omega
      · rw [hb, Option.some.injEq, Prod.mk.injEq] at hbA
        exact ⟨0, by omega⟩
      · rw [Option.some.injEq, Prod.mk.injEq] at hbA
        exact ⟨0, by omega⟩

/-- Witness for C1: a fresh bucket, `max_tokens = 2`, one unit-cost call. -/
theorem tokenBucket_store_invariant_unit_cost_witness :
    TokenBucket.wf 2 (TokenBucket.limit 2 1000 1 0 1 ⟨none, none⟩).2 :=
  (tokenBucket_store_invariant_unit_cost 2 1000 1 0 ⟨none, none⟩ (by decide)
    (by trivial)).1

/-- C2: for each of the three algorithms, on any store state whose token
balance does not exceed `max_tokens` (an invariant of every reachable
state, see `tokenBucket_ub_preserved`), the `remaining` field of the
response of a `limit()` call lies in `[0, limit]`. -/
theorem response_remaining_in_range
    (fwMax fwWindow fwNow fwRate : ℕ) (fwSt : FixedWindow.State)
    (swMax swWindow swNow swRate : ℕ) (swSt : SlidingWindow.State)
    (tbMax tbInterval tbRefill tbNow tbRate : ℕ) (tbSt : TokenBucket.State)
    (hub : TokenBucket.ub tbMax tbSt) :
    (0 ≤ (FixedWindow.limit fwMax fwWindow fwNow fwRate fwSt).1.remaining ∧
      (FixedWindow.limit fwMax fwWindow fwNow fwRate fwSt).1.remaining
        ≤ (FixedWindow.limit fwMax fwWindow fwNow fwRate fwSt).1.limit) ∧
    (0 ≤ (SlidingWindow.limit swMax swWindow swNow swRate swSt).1.remaining ∧
      (SlidingWindow.limit swMax swWindow swNow swRate swSt).1.remaining
        ≤ (SlidingWindow.limit swMax swWindow swNow swRate swSt).1.limit) ∧
    (0 ≤ (TokenBucket.limit tbMax tbInterval tbRefill tbNow tbRate tbSt).1.remaining ∧
      (TokenBucket.limit tbMax tbInterval tbRefill tbNow tbRate tbSt).1.remaining
        ≤ (TokenBucket.limit tbMax tbInterval tbRefill tbNow tbRate tbSt).1.limit) := by
  refine ⟨?_, ?_, ?_⟩
  · simp only [FixedWindow.limit, FixedWindow.script]
    omega
  · have hw0 : 0 ≤ ⌊(1 - SlidingWindow.pct swWindow swNow) * (swSt.prev.getD 0 : ℚ)⌋ :=
      Int.floor_nonneg.mpr
        (mul_nonneg (by linarith [pct_le_one swWindow swNow]) (Nat.cast_nonneg _))
    simp only [SlidingWindow.limit, SlidingWindow.script]
    split_ifs with hc <;> omega
  · rcases hb : tbSt.bucket with _ | ⟨r, t⟩
    · simp only [TokenBucket.limit, TokenBucket.script, hb, Option.getD_none,
        sub_self, Int.zero_ediv, zero_mul, add_zero, min_self]
      split_ifs with h1 h2 h2 <;> dsimp only <;> omega
    · rw [TokenBucket.ub, hb] at hub
      simp only [TokenBucket.limit, TokenBucket.script, hb, Option.getD_some]
      split_ifs with h1 h2 h2 <;> dsimp only <;> omega

/-- Witness for C2: concrete states for all three algorithms. -/
theorem response_remaining_in_range_witness :
    0 ≤ (FixedWindow.limit 5 1000 0 1 ⟨none, none⟩).1.remaining ∧
      (FixedWindow.limit 5 1000 0 1 ⟨none, none⟩).1.remaining
        ≤ (FixedWindow.limit 5 1000 0 1 ⟨none, none⟩).1.limit :=
  (response_remaining_in_range 5 1000 0 1 ⟨none, none⟩ 5 1000 0 1 ⟨none, none, none⟩
    5 1000 1 0 1 ⟨some (0, 3), none⟩ (by norm_num [TokenBucket.ub])).1

/-- C6: for an existing bucket due for refill (`now ≥ refilled_at +
interval`), the script computes `refills = floor((now - refilled_at) /
interval)` (euclidean division by the positive interval equals the floor
of the real quotient), refills the balance to `min(max_tokens, tokens +
refills * refill_rate)`, advances `refilled_at` by exactly `refills *
interval` (never to `now`), and waiting exactly `k` intervals yields
`refills = k`. -/
theorem tokenBucket_refill_schedule (maxT interval rr now rate : ℕ) (r t : ℤ)
    (st : TokenBucket.State) (hb : st.bucket = some (r, t))
    (hdue : r + (interval : ℤ) ≤ (now : ℤ)) (hpos : 1 ≤ interval) :
    (((now : ℤ) - r) / (interval : ℤ)
        = ⌊((((now : ℤ) - r : ℤ)) : ℚ) / ((interval : ℕ) : ℚ)⌋) ∧
    (min (maxT : ℤ) (t + ((now : ℤ) - r) / (interval : ℤ) * (rr : ℤ)) = 0 →
      TokenBucket.script maxT interval rr now rate st
        = ((-1, r + ((now : ℤ) - r) / (interval : ℤ) * (interval : ℤ) + (interval : ℤ)),
            st)) ∧
    (min (maxT : ℤ) (t + ((now : ℤ) - r) / (interval : ℤ) * (rr : ℤ)) ≠ 0 →
      ((TokenBucket.script maxT interval rr now rate st).2.bucket
          = some (r + ((now : ℤ) - r) / (interval : ℤ) * (interval : ℤ),
              min (maxT : ℤ) (t + ((now : ℤ) - r) / (interval : ℤ) * (rr : ℤ)) - (rate : ℤ))) ∧
      ((TokenBucket.script maxT interval rr now rate st).1.1
          = min (maxT : ℤ) (t + ((now : ℤ) - r) / (interval : ℤ) * (rr : ℤ)) - (rate : ℤ))) ∧
    (∀ k : ℕ, (now : ℤ) = r + (k : ℤ) * (interval : ℤ) →
      ((now : ℤ) - r) / (interval : ℤ) = (k : ℤ)) := by
  refine ⟨(Rat.floor_intCast_div_natCast ((now : ℤ) - r) interval).symm, ?_, ?_, ?_⟩
  · intro h0
    simp only [TokenBucket.script, hb, Option.getD_some, if_pos hdue, h0, if_pos rfl,
      eq_self_iff_true, if_true]
  · intro hne
    simp only [TokenBucket.script, hb, Option.getD_some, if_pos hdue, if_neg hne]
    exact ⟨trivial, trivial⟩
  · intro k hk
    have hne : (interval : ℤ) ≠ 0 := by
      have : (1 : ℤ) ≤ (interval : ℤ) := by exact_mod_cast hpos
      omega
    rw [hk, add_sub_cancel_left, Int.mul_ediv_cancel _ hne]

/-- Witness for C6: bucket `(0, 0)`, `interval = 1000`, queried at
`now = 2000`, i.e. exactly two intervals later. -/
theorem tokenBucket_refill_schedule_witness :
    (((2000 : ℕ) : ℤ) - 0) / ((1000 : ℕ) : ℤ) = ((2 : ℕ) : ℤ) :=
  (tokenBucket_refill_schedule 5 1000 1 2000 1 0 0 ⟨some (0, 0), none⟩ rfl (by decide)
    (by decide)).2.2.2 2 (by decide)

/-- C4 counterexample: in the current `limiter.py`, `get_reset` for an
identifier with no tracked state does not return `-1`: Fixed Window
(window 1000ms, now 500ms) returns the current window's end `1` second,
and Token Bucket returns the current time `1/2` second. -/
theorem reset_untracked_cex :
    (FixedWindow.getReset 1000 500 = 1) ∧
    (TokenBucket.getReset 1000 500 none = 1 / 2) ∧
    ((1 : ℚ) ≠ -1) ∧ ((1 / 2 : ℚ) ≠ -1) := by
  refine ⟨?_, ?_, by norm_num, by norm_num⟩ <;>
    norm_num [FixedWindow.getReset, TokenBucket.getReset, msToS]

/-- C4 (amended): only the legacy `algorithm.py` implementations return
the sentinel `-1` for an untracked identifier; the current `limiter.py`
`get_reset` implementations never do — Fixed and Sliding Window always
answer the current window's end and Token Bucket answers the current
time when the bucket is absent. -/
theorem reset_untracked_amended (window now interval : ℕ) :
    (Legacy.fixedWindowReset window now none = -1) ∧
    (Legacy.slidingWindowReset window now none none = -1) ∧
    (Legacy.tokenBucketReset interval now none = -1) ∧
    (FixedWindow.getReset window now ≠ -1) ∧
    (SlidingWindow.getReset window now ≠ -1) ∧
    (TokenBucket.getReset interval now none ≠ -1) := by
  have key : ∀ m : ℕ, msToS ((m : ℕ) : ℤ) ≠ -1 := by
    intro m h
    have h0 : (0 : ℚ) ≤ msToS ((m : ℕ) : ℤ) := by
      unfold msToS
      positivity
    rw [h] at h0
    norm_num at h0
  exact ⟨rfl, rfl, rfl, key _, key _, key _⟩

/-- C10: for each algorithm, `get_remaining` on an identifier with no
stored state returns the full configured capacity. -/
theorem getRemaining_untracked_full (fwMax swMax swWindow swNow tbMax tbRefill
    tbInterval tbNow : ℕ) :
    (FixedWindow.getRemaining fwMax none = (fwMax : ℤ)) ∧
    (SlidingWindow.getRemaining swMax swWindow swNow none none = (swMax : ℤ)) ∧
    (TokenBucket.getRemaining tbMax tbRefill tbInterval tbNow none = (tbMax : ℤ)) := by
  refine ⟨rfl, ?_, rfl⟩
  simp [SlidingWindow.getRemaining]

theorem storeAt_shift {σ : Type} (limitFn : σ → Response × σ) (s : σ) (n : ℕ) :
    Block.storeAt limitFn s (n + 1) = Block.storeAt limitFn (limitFn s).2 n := by
  induction n with
  | zero => rfl
  | succ n ih => rw [Block.storeAt, ih, Block.storeAt]

theorem respAt_shift {σ : Type} (limitFn : σ → Response × σ) (s : σ) (i : ℕ) :
    Block.respAt limitFn s (i + 1) = Block.respAt limitFn (limitFn s).2 i := by
  unfold Block.respAt
  rw [storeAt_shift]

theorem blockLoop_firstAllowedAt {σ : Type} (limitFn : σ → Response × σ) (deadline : ℚ) :
    ∀ (checks : List ℚ) (s : σ) (i : ℕ),
      Block.FirstAllowedAt limitFn s deadline checks i →
      (Block.blockLoop limitFn deadline checks s).1 = some (Block.respAt limitFn s i) := by
  intro checks
  induction checks with
  | nil =>
    intro s i h
    exact absurd h.1 (by simp)
  | cons t rest ih =>
    intro s i h
    obtain ⟨hlen, hpre, hallow⟩ := h
    cases i with
    | zero =>
      have ha : (limitFn s).1.allowed = true := hallow
      simp [Block.blockLoop, ha, Block.respAt, Block.storeAt]
    | succ i =>
      have h0 := hpre 0 (Nat.succ_pos i)
      have hna : (limitFn s).1.allowed = false := h0.1
      have hle : ¬(deadline < t) := not_lt.mpr h0.2
      rw [respAt_shift]
      simp only [Block.blockLoop, hna, Bool.false_eq_true, if_false, hle]
      exact ih (limitFn s).2 i
        ⟨by simpa using hlen,
         fun j hj => by
           have := hpre (j + 1) (by omega)
           rw [respAt_shift] at this
           exact ⟨this.1, by simpa using this.2⟩,
         by rw [← respAt_shift]; exact hallow⟩

theorem blockLoop_deadlineHitAt {σ : Type} (limitFn : σ → Response × σ) (deadline : ℚ) :
    ∀ (checks : List ℚ) (s : σ) (i : ℕ),
      Block.DeadlineHitAt limitFn s deadline checks i →
      (Block.blockLoop limitFn deadline checks s).1 = some (Block.respAt limitFn s i) := by
  intro checks
  induction checks with
  | nil =>
    intro s i h
    exact absurd h.1 (by simp)
  | cons t rest ih =>
    intro s i h
    obtain ⟨hlen, hden, hpre, hhit⟩ := h
    cases i with
    | zero =>
      have hna : (limitFn s).1.allowed = false := hden 0 le_rfl
      have hlt : deadline < t := by simpa using hhit
      simp [Block.blockLoop, hna, hlt, Block.respAt, Block.storeAt]
    | succ i =>
      have hna : (limitFn s).1.allowed = false := hden 0 (Nat.zero_le _)
      have hle : ¬(deadline < t) := not_lt.mpr (by simpa using hpre 0 (Nat.succ_pos i))
      rw [respAt_shift]
      simp only [Block.blockLoop, hna, Bool.false_eq_true, if_false, hle]
      exact ih (limitFn s).2 i
        ⟨by simpa using hlen,
         fun j hj => by
           have := hden (j + 1) (by omega)
           rwa [respAt_shift] at this,
         fun j hj => by
           have := hpre (j + 1) (by omega)
           simpa using this,
         by simpa using hhit⟩

/-- C8: with a positive timeout, `block_until_ready` never raises: it
returns (`Except.ok`) the first allowed response when one is observed
while the deadline tests keep passing, and otherwise the last observed
denied response, returned at the first deadline test that fails. -/
theorem blockUntilReady_first_allowed_or_last_denied {σ : Type}
    (limitFn : σ → Response × σ) (timeout start : ℚ) (checks : List ℚ) (s : σ)
    (h : 0 < timeout) :
    (∃ o, (Block.blockUntilReady limitFn timeout start checks s).1 = Except.ok o) ∧
    (∀ i, Block.FirstAllowedAt limitFn s (start + timeout) checks i →
      (Block.blockUntilReady limitFn timeout start checks s).1
        = Except.ok (some (Block.respAt limitFn s i))) ∧
    (∀ i, Block.DeadlineHitAt limitFn s (start + timeout) checks i →
      (Block.blockUntilReady limitFn timeout start checks s).1
        = Except.ok (some (Block.respAt limitFn s i))) := by
  have hn : ¬(timeout ≤ 0) := not_le.mpr h
  unfold Block.blockUntilReady
  rw [if_neg hn]
  refine ⟨⟨(Block.blockLoop limitFn (start + timeout) checks s).1, rfl⟩, ?_, ?_⟩
  · intro i hi
    show Except.ok (Block.blockLoop limitFn (start + timeout) checks s).1
      = Except.ok (some (Block.respAt limitFn s i))
    rw [blockLoop_firstAllowedAt limitFn (start + timeout) checks s i hi]
  · intro i hi
    show Except.ok (Block.blockLoop limitFn (start + timeout) checks s).1
      = Except.ok (some (Block.respAt limitFn s i))
    rw [blockLoop_deadlineHitAt limitFn (start + timeout) checks s i hi]

/-- Witness for C8: the toy decision function, timeout 10s. -/
theorem blockUntilReady_first_allowed_or_last_denied_witness :
    ∃ o, (Block.blockUntilReady demoLimitFn 10 0 [1, 2] 0).1 = Except.ok o :=
  (blockUntilReady_first_allowed_or_last_denied demoLimitFn 10 0 [1, 2] 0
    (by norm_num)).1

/-- C9: a non-positive timeout makes `block_until_ready` raise the
invalid-argument error before issuing any decision: zero decisions are
issued and the store state is returned unchanged. -/
theorem blockUntilReady_nonpositive_timeout {σ : Type} (limitFn : σ → Response × σ)
    (timeout start : ℚ) (checks : List ℚ) (s : σ) (h : timeout ≤ 0) :
    Block.blockUntilReady limitFn timeout start checks s
      = (Except.error RatelimitError.invalidTimeout, s, 0) := by
  unfold Block.blockUntilReady
  rw [if_pos h]

/-- Witness for C9: timeout `0` on a nonempty clock trace. -/
theorem blockUntilReady_nonpositive_timeout_witness :
    Block.blockUntilReady demoLimitFn 0 5 [6, 7] 3
      = (Except.error RatelimitError.invalidTimeout, 3, 0) :=
  blockUntilReady_nonpositive_timeout demoLimitFn 0 5 [6, 7] 3 (by norm_num)
